import Mathlib

/-!
# Verification of the daily quiz core (`server.js`)

Shallow embedding of the deterministic selection-and-shuffling core of the
quiz server: the seeded Fisher–Yates shuffle (`seededShuffle`), the
difficulty partitioner (`groupByDifficulty`) and the daily set builder
(`buildDailySet`), together with proofs of the specified properties
(permutation, determinism, quota/progression structure, filler behaviour,
id uniqueness, and size bounds).

JavaScript arrays are modelled as Lean `List`s; question records as a
`Question` structure; the third-party `seedrandom` pseudo-random generator
(an external library, not part of the repository) is modelled as a
deterministic integer stream keyed by the seed string, with the draw
`Math.floor(rng() * (i + 1))` — a uniform value in `[0, i]` since
`rng () ∈ [0, 1)` — modelled as a stream value reduced modulo `i + 1`.
All properties proved here depend only on the generator being a
deterministic function of the seed producing in-range draws, which this
model shares with `seedrandom`.
-/

/-- A quiz question, as stored in the pool (`questions.js`) and consumed by
`server.js`: an id, the question text, the four lettered options, the
correct label and a difficulty tag. -/
structure Question where
  id : Nat
  text : String
  options : List (String × String)
  correct : String
  difficulty : String
deriving DecidableEq, Repr

/-- Initial generator state derived from the seed string (models the
seeding step `seedrandom(seed)`: the state is a pure function of the seed,
independent of any ambient process state). -/
def seedHash (s : String) : Nat :=
  s.data.foldl (fun h c => (h * 33 + c.toNat) % 4294967296) 5381

/-- One step of the deterministic pseudo-random stream (32-bit linear
congruential step). -/
def rngNext (st : Nat) : Nat :=
  (st * 1103515245 + 12345) % 4294967296

/-- The `k`-th draw of the generator seeded from `seed` (models the `k`-th
call of `rng()` inside one `seededShuffle` invocation). -/
def rngDraw (seed : String) : Nat → Nat
  | 0 => rngNext (seedHash seed)
  | k + 1 => rngNext (rngDraw seed k)

/-- Swap the entries at positions `i` and `j`, the JS destructuring
assignment `[arr[i], arr[j]] = [arr[j], arr[i]]`; out-of-range indices
leave the list unchanged (never happens in the shuffle loop). -/
def listSwap (l : List α) (i j : Nat) : List α :=
  match l.get? i, l.get? j with
  | some a, some b => (l.set i b).set j a
  | _, _ => l

/-- The Fisher–Yates loop of `seededShuffle`: `i` is the descending loop
counter (the loop body runs while `i > 0`), `k` counts the draws made so
far, so position `i` is swapped with `rngDraw seed k % (i + 1)`, the model
of `Math.floor(rng() * (i + 1))`. -/
def shuffleGo (seed : String) : List α → Nat → Nat → List α
  | arr, 0, _ => arr
  | arr, i + 1, k => shuffleGo seed (listSwap arr (i + 1) (rngDraw seed k % (i + 2))) i (k + 1)

/-- The function `seededShuffle(array, seed)` from `server.js`: deterministic
Fisher–Yates shuffle of a copy of `array`, driven by a generator built
from `seed`. -/
def seededShuffle (array : List α) (seed : String) : List α :=
  shuffleGo seed array (array.length - 1) 0

/-- The function `groupByDifficulty(pool)` from `server.js`: the reduce builds, for
each difficulty label, the sub-sequence of pool questions carrying that
label in pool order; a label never pushed is absent, which the consumer
(`pickFromGroup`) reads as the empty list. -/
def groupByDifficulty (pool : List Question) : String → List Question :=
  fun d => pool.filter (fun q => q.difficulty == d)

/-- The `pickFromGroup` closure inside `buildDailySet`: shuffle the
group for `groupName` with seed `seed ++ "-" ++ groupName` and keep the
first `n` items. -/
def pickFromGroup (grouped : String → List Question) (groupName : String) (n : Nat)
    (seed : String) : List Question :=
  (seededShuffle (grouped groupName) (seed ++ "-" ++ groupName)).take n

/-- The intermediate `result` of `buildDailySet` after the three
`result.push(...)` calls: the Easy quota block (4), then the Medium block
(5), then the Hard block (21), in that fixed order. -/
def quotaBlocks (pool : List Question) (daySeed : String) : List Question :=
  let grouped := groupByDifficulty pool
  pickFromGroup grouped ("Easy") 4 daySeed
    ++ pickFromGroup grouped ("Medium") 5 daySeed
    ++ pickFromGroup grouped ("Hard") 21 daySeed

/-- The function `buildDailySet(pool, dateSeed)` from `server.js`: the three quota
blocks, then — if fewer than 30 items were produced — filler items drawn
from the rest of the pool shuffled with seed `daySeed ++ "-filler"`, or —
if more than 30 were produced — `result.splice(30)`, keeping the first
30. -/
def buildDailySet (pool : List Question) (dateSeed : String) : List Question :=
  let daySeed := dateSeed
  let result := quotaBlocks pool daySeed
  if result.length < 30 then
    let needed := 30 - result.length
    let remainingPool := pool.filter (fun q => !(result.any (fun r => r.id == q.id)))
    result ++ (seededShuffle remainingPool (daySeed ++ "-filler")).take needed
  else if result.length > 30 then
    result.take 30
  else
    result

/-- Ambient process state visible to a JS call (e.g. the global unseeded
`Math.random` state). `seedrandom(seed)` constructs a fresh generator from
`seed` alone, so a `seededShuffle` call neither reads nor writes it. -/
structure World where
  ambientRng : Nat
deriving DecidableEq

/-- A `seededShuffle` call as the JS runtime makes it: the ambient state
is threaded through the call; the body builds its generator from the seed
only, so the state passes through unchanged and does not influence the
result. -/
def seededShuffleCall (w : World) (array : List α) (seed : String) : List α × World :=
  (seededShuffle array seed, w)

/-- A `buildDailySet` call with the ambient state threaded through; as
with `seededShuffleCall`, every generator used inside is constructed from
the seed argument, so the ambient state passes through untouched. -/
def buildDailySetCall (w : World) (pool : List Question) (dateSeed : String) :
    List Question × World :=
  (buildDailySet pool dateSeed, w)

/-- A concrete question with id `i` and difficulty `d`, for evaluating the
theorems on concrete pools. -/
def mkQ (i : Nat) (d : String) : Question :=
  ⟨i, "q", [("A", "a"), ("B", "b"), ("C", "c"), ("D", "d")], "A", d⟩

/-- A concrete pool of 30 questions with distinct ids: 4 Easy, 5 Medium
and 21 Hard. -/
def testPool : List Question :=
  (List.range 4).map (fun i => mkQ i ("Easy"))
    ++ (List.range 5).map (fun i => mkQ (4 + i) "Medium")
    ++ (List.range 21).map (fun i => mkQ (9 + i) "Hard")

/-- A concrete pool of only 3 questions with distinct ids. -/
def smallPool : List Question :=
  [mkQ 0 ("Easy"), mkQ 1 ("Medium"), mkQ 2 ("Hard")]

/-! ## Permutation properties of the seeded shuffle -/

/-- Setting position `i` (which holds `a`) to `b` and re-adjoining `a` in
front is a permutation of adjoining `b` in front. -/
theorem cons_set_perm (l : List α) (i : Nat) (a b : α) (h : l.get? i = some a) :
    (a :: l.set i b).Perm (b :: l) := by
  induction l generalizing i with
  | nil => simp at h
  | cons x xs ih =>
    cases i with
    | zero =>
      have hxa : x = a := by simpa using h
      subst hxa
      simpa [List.set] using List.Perm.swap b x xs
    | succ n =>
      have h' : xs.get? n = some a := by simpa using h
      have step : (a :: (x :: xs).set (n + 1) b) = a :: x :: xs.set n b := by
        simp [List.set]
      rw [step]
      exact ((List.Perm.swap x a _).trans ((ih n h').cons x)).trans (List.Perm.swap b x xs)

/-- The swap step of the Fisher–Yates loop permutes the list. -/
theorem listSwap_perm (l : List α) (i j : Nat) : (listSwap l i j).Perm l := by
  unfold listSwap
  cases hi : l.get? i with
  | none => exact List.Perm.refl l
  | some a =>
    cases hj : l.get? j with
    | none => exact List.Perm.refl l
    | some b =>
      have hjl : j < l.length := by
        by_contra hge
        rw [List.get?_eq_none.mpr (Nat.le_of_not_lt hge)] at hj
        cases hj
      have h2 : (l.set i b).get? j = some b := by
        by_cases hij : i = j
        · subst hij
          exact List.get?_set_eq_of_lt b (by simpa using hjl)
        · rw [List.get?_set_ne b l hij, hj]
      have p1 : (b :: (l.set i b).set j a).Perm (a :: l.set i b) :=
        cons_set_perm (l.set i b) j b a h2
      have p2 : (a :: l.set i b).Perm (b :: l) := cons_set_perm l i a b hi
      exact (p1.trans p2).cons_inv

/-- Every run of the Fisher–Yates loop permutes its input. -/
theorem shuffleGo_perm (seed : String) (i : Nat) :
    ∀ (k : Nat) (arr : List α), (shuffleGo seed arr i k).Perm arr := by
  induction i with
  | zero => intro k arr; exact List.Perm.refl arr
  | succ n ih =>
    intro k arr
    exact (ih (k + 1) _).trans (listSwap_perm arr (n + 1) (rngDraw seed k % (n + 2)))

/-- The seeded shuffle returns a permutation of its input. -/
theorem seededShuffle_perm (l : List α) (seed : String) :
    (seededShuffle l seed).Perm l :=
  shuffleGo_perm seed (l.length - 1) 0 l

/-- A shuffled list has the same length as the input. -/
theorem seededShuffle_length (l : List α) (seed : String) :
    (seededShuffle l seed).length = l.length :=
  (seededShuffle_perm l seed).length_eq

/-- Shuffling preserves membership. -/
theorem mem_seededShuffle {l : List α} {seed : String} {a : α} :
    a ∈ seededShuffle l seed ↔ a ∈ l :=
  (seededShuffle_perm l seed).mem_iff

/-- A list of length at most one is returned unchanged (the loop body
never runs). -/
theorem seededShuffle_short (l : List α) (seed : String) (h : l.length ≤ 1) :
    seededShuffle l seed = l := by
  match l with
  | [] => rfl
  | [a] => rfl
  | a :: b :: t => simp at h

/-- C3: for every sequence `S` and seed, the seeded shuffle returns a
permutation of `S` — same multiset of elements, same length — and a
sequence of length at most one (empty or single-element) is returned
unchanged. -/
theorem seededShuffle_is_permutation {α : Type} (S : List α) (seed : String) :
    (seededShuffle S seed).Perm S ∧ (seededShuffle S seed).length = S.length ∧
      (S.length ≤ 1 → seededShuffle S seed = S) :=
  ⟨seededShuffle_perm S seed, seededShuffle_length S seed, seededShuffle_short S seed⟩

/-- Witness for C3: the single-element edge case evaluated at a concrete
input. -/
theorem seededShuffle_is_permutation_witness :
    seededShuffle ([5] : List Nat) "2024-05-01-1" = [5] :=
  (seededShuffle_is_permutation ([5] : List Nat) "2024-05-01-1").2.2 (by decide)

/-- C4: the seeded shuffle is deterministic — the result of a call depends
only on the sequence and the seed: it is unchanged by the ambient
generator state (no shared state leaks between calls), and two successive
calls with identical inputs return identical outputs. -/
theorem seededShuffle_deterministic {α : Type} (w₁ w₂ : World) (S : List α) (seed : String) :
    (seededShuffleCall w₁ S seed).1 = (seededShuffleCall w₂ S seed).1 ∧
      (seededShuffleCall (seededShuffleCall w₁ S seed).2 S seed).1
        = (seededShuffleCall w₁ S seed).1 :=
  ⟨rfl, rfl⟩

/-- C5: `buildDailySet` is deterministic — its result depends only on the
pool and the day seed: it is unchanged by the ambient generator state, and
two successive calls with the same pool and seed return identical lists. -/
theorem buildDailySet_deterministic (w₁ w₂ : World) (pool : List Question) (daySeed : String) :
    (buildDailySetCall w₁ pool daySeed).1 = (buildDailySetCall w₂ pool daySeed).1 ∧
      (buildDailySetCall (buildDailySetCall w₁ pool daySeed).2 pool daySeed).1
        = (buildDailySetCall w₁ pool daySeed).1 :=
  ⟨rfl, rfl⟩

/-! ## Quota blocks: membership, length, id-uniqueness -/

/-- An item picked from the group for label `g` is a pool question whose
difficulty is exactly `g`. -/
theorem mem_pickFromGroup {pool : List Question} {g : String} {n : Nat} {s : String}
    {q : Question} (h : q ∈ pickFromGroup (groupByDifficulty pool) g n s) :
    q ∈ pool ∧ q.difficulty = g := by
  unfold pickFromGroup at h
  have h1 : q ∈ seededShuffle (groupByDifficulty pool g) (s ++ "-" ++ g) :=
    (List.take_sublist n _).subset h
  have h2 : q ∈ groupByDifficulty pool g := mem_seededShuffle.mp h1
  have h3 := List.mem_filter.mp h2
  exact ⟨h3.1, by simpa using h3.2⟩

/-- The pick for label `g` has `min n (size of the g group)` items. -/
theorem length_pickFromGroup (grouped : String → List Question) (g : String) (n : Nat)
    (s : String) :
    (pickFromGroup grouped g n s).length = min n (grouped g).length := by
  unfold pickFromGroup
  rw [List.length_take, seededShuffle_length]

/-- If the pool carries pairwise-distinct ids, so does each quota pick. -/
theorem nodup_map_pickFromGroup {pool : List Question} (g : String) (n : Nat) (s : String)
    (h : (pool.map Question.id).Nodup) :
    ((pickFromGroup (groupByDifficulty pool) g n s).map Question.id).Nodup := by
  have hgrp : ((groupByDifficulty pool g).map Question.id).Nodup :=
    h.sublist ((List.filter_sublist pool).map Question.id)
  have hshuf : ((seededShuffle (groupByDifficulty pool g) (s ++ "-" ++ g)).map
      Question.id).Nodup :=
    (((seededShuffle_perm _ _).map Question.id).nodup_iff).mpr hgrp
  exact hshuf.sublist ((List.take_sublist n _).map Question.id)

/-- Picks for two distinct labels use disjoint id sets (given distinct
pool ids): a question in the `g₁` pick has difficulty `g₁`, one in the
`g₂` pick has difficulty `g₂`, and equal ids would force them to be the
same pool question. -/
theorem pick_id_disjoint {pool : List Question} {s : String}
    (h : (pool.map Question.id).Nodup) {g₁ g₂ : String} (hg : g₁ ≠ g₂) (n₁ n₂ : Nat) :
    List.Disjoint ((pickFromGroup (groupByDifficulty pool) g₁ n₁ s).map Question.id)
      ((pickFromGroup (groupByDifficulty pool) g₂ n₂ s).map Question.id) := by
  intro x hx₁ hx₂
  obtain ⟨q₁, hq₁, hid₁⟩ := List.mem_map.mp hx₁
  obtain ⟨q₂, hq₂, hid₂⟩ := List.mem_map.mp hx₂
  obtain ⟨hp₁, hd₁⟩ := mem_pickFromGroup hq₁
  obtain ⟨hp₂, hd₂⟩ := mem_pickFromGroup hq₂
  have hqq : q₁ = q₂ := List.inj_on_of_nodup_map h hp₁ hp₂ (by rw [hid₁, hid₂])
  exact hg (by rw [← hd₁, hqq, hd₂])

/-- Every question in the quota blocks is a pool question labelled Easy,
Medium or Hard. -/
theorem mem_quotaBlocks {pool : List Question} {s : String} {q : Question}
    (h : q ∈ quotaBlocks pool s) :
    q ∈ pool ∧ (q.difficulty = "Easy" ∨ q.difficulty = "Medium" ∨ q.difficulty = "Hard") := by
  unfold quotaBlocks at h
  rcases List.mem_append.mp h with h12 | h3
  · rcases List.mem_append.mp h12 with h1 | h2
    · obtain ⟨hp, hd⟩ := mem_pickFromGroup h1
      exact ⟨hp, Or.inl hd⟩
    · obtain ⟨hp, hd⟩ := mem_pickFromGroup h2
      exact ⟨hp, Or.inr (Or.inl hd)⟩
  · obtain ⟨hp, hd⟩ := mem_pickFromGroup h3
    exact ⟨hp, Or.inr (Or.inr hd)⟩

/-- If the pool carries pairwise-distinct ids, the concatenated quota
blocks do too. -/
theorem nodup_map_quotaBlocks {pool : List Question} {s : String}
    (h : (pool.map Question.id).Nodup) :
    ((quotaBlocks pool s).map Question.id).Nodup := by
  unfold quotaBlocks
  simp only [List.map_append]
  rw [List.nodup_append, List.nodup_append]
  refine ⟨⟨nodup_map_pickFromGroup _ _ _ h, nodup_map_pickFromGroup _ _ _ h,
      pick_id_disjoint h (by decide) 4 5⟩,
    nodup_map_pickFromGroup _ _ _ h, ?_⟩
  intro x hx hx'
  rcases List.mem_append.mp hx with h' | h'
  · exact pick_id_disjoint h (by decide) 4 21 h' hx'
  · exact pick_id_disjoint h (by decide) 5 21 h' hx'

/-- The quota blocks hold `min 4 |Easy| + min 5 |Medium| + min 21 |Hard|`
questions. -/
theorem length_quotaBlocks (pool : List Question) (s : String) :
    (quotaBlocks pool s).length
      = min 4 (groupByDifficulty pool ("Easy")).length
        + min 5 (groupByDifficulty pool ("Medium")).length
        + min 21 (groupByDifficulty pool ("Hard")).length := by
  unfold quotaBlocks
  simp only [List.length_append, length_pickFromGroup]

/-- The quota blocks never exceed 30 items (4 + 5 + 21 = 30). -/
theorem length_quotaBlocks_le (pool : List Question) (s : String) :
    (quotaBlocks pool s).length ≤ 30 := by
  rw [length_quotaBlocks]
  omega

/-! ## Branch analysis of buildDailySet -/

/-- When the quota blocks fall short of 30, `buildDailySet` takes the
filler branch: the blocks followed by the front of the shuffled remainder
of the pool. -/
theorem buildDailySet_eq_filler {pool : List Question} {s : String}
    (h : (quotaBlocks pool s).length < 30) :
    buildDailySet pool s
      = quotaBlocks pool s
        ++ (seededShuffle
              (pool.filter (fun q => !((quotaBlocks pool s).any (fun r => r.id == q.id))))
              (s ++ "-filler")).take (30 - (quotaBlocks pool s).length) := by
  simp only [buildDailySet]
  rw [if_pos h]

/-- When the quota blocks are not short of 30 they have exactly 30 items
(they can never exceed 30), and `buildDailySet` returns them unchanged. -/
theorem buildDailySet_eq_blocks {pool : List Question} {s : String}
    (h : ¬ (quotaBlocks pool s).length < 30) :
    buildDailySet pool s = quotaBlocks pool s := by
  have h30 : (quotaBlocks pool s).length = 30 :=
    Nat.le_antisymm (length_quotaBlocks_le pool s) (Nat.le_of_not_lt h)
  simp only [buildDailySet]
  rw [if_neg h, if_neg (by omega)]

/-- C10: the daily set never exceeds 30 items: each quota block is capped
at its count (4 + 5 + 21 = 30), so the concatenated blocks never exceed 30
— hence the guard `result.length > 30` of the trim branch is never true
and that branch is unreachable. -/
theorem buildDailySet_length_le (pool : List Question) (daySeed : String) :
    (buildDailySet pool daySeed).length ≤ 30 ∧ (quotaBlocks pool daySeed).length ≤ 30 := by
  refine ⟨?_, length_quotaBlocks_le pool daySeed⟩
  by_cases h : (quotaBlocks pool daySeed).length < 30
  · rw [buildDailySet_eq_filler h, List.length_append]
    have ht := List.length_take_le (30 - (quotaBlocks pool daySeed).length)
      (seededShuffle
        (pool.filter (fun q => !((quotaBlocks pool daySeed).any (fun r => r.id == q.id))))
        (daySeed ++ "-filler"))
    omega
  · rw [buildDailySet_eq_blocks h]
    exact length_quotaBlocks_le pool daySeed

/-- C1: for a pool with pairwise-distinct ids holding at least 4 Easy, 5
Medium and 21 Hard questions, `buildDailySet` returns exactly 30 questions
with pairwise-distinct ids, for every day seed. -/
theorem buildDailySet_size (pool : List Question) (daySeed : String)
    (hids : (pool.map Question.id).Nodup)
    (hE : 4 ≤ (groupByDifficulty pool ("Easy")).length)
    (hM : 5 ≤ (groupByDifficulty pool ("Medium")).length)
    (hH : 21 ≤ (groupByDifficulty pool ("Hard")).length) :
    (buildDailySet pool daySeed).length = 30 ∧
      ((buildDailySet pool daySeed).map Question.id).Nodup := by
  have hlen : (quotaBlocks pool daySeed).length = 30 := by
    rw [length_quotaBlocks]
    omega
  have heq : buildDailySet pool daySeed = quotaBlocks pool daySeed :=
    buildDailySet_eq_blocks (by omega)
  rw [heq, hlen]
  exact ⟨rfl, nodup_map_quotaBlocks hids⟩

/-- Witness for C1: the concrete 30-question pool. -/
theorem buildDailySet_size_witness :
    (buildDailySet testPool ("2024-05-01-1")).length = 30 ∧
      ((buildDailySet testPool ("2024-05-01-1")).map Question.id).Nodup :=
  buildDailySet_size testPool ("2024-05-01-1") (by decide) (by decide) (by decide) (by decide)

/-- C2: with satisfiable quotas, the daily set is exactly the three quota
blocks in order — no re-sorting after concatenation — so the question at
each of the first 4 positions is Easy, at the next 5 Medium, and at the
remaining 21 Hard. -/
theorem buildDailySet_progression (pool : List Question) (daySeed : String)
    (hids : (pool.map Question.id).Nodup)
    (hE : 4 ≤ (groupByDifficulty pool ("Easy")).length)
    (hM : 5 ≤ (groupByDifficulty pool ("Medium")).length)
    (hH : 21 ≤ (groupByDifficulty pool ("Hard")).length) :
    buildDailySet pool daySeed = quotaBlocks pool daySeed ∧
      ∀ (i : Nat) (q : Question), (buildDailySet pool daySeed).get? i = some q →
        q.difficulty = if i < 4 then ("Easy") else if i < 9 then ("Medium") else ("Hard") := by
  have hlE : (pickFromGroup (groupByDifficulty pool) "Easy" 4 daySeed).length = 4 := by
    rw [length_pickFromGroup]
    omega
  have hlM : (pickFromGroup (groupByDifficulty pool) "Medium" 5 daySeed).length = 5 := by
    rw [length_pickFromGroup]
    omega
  have heq : buildDailySet pool daySeed = quotaBlocks pool daySeed :=
    buildDailySet_eq_blocks (by rw [length_quotaBlocks]; omega)
  refine ⟨heq, ?_⟩
  intro i q hq
  rw [heq] at hq
  simp only [quotaBlocks] at hq
  by_cases h9 : i < 9
  · rw [List.get?_append (by rw [List.length_append, hlE, hlM]; omega)] at hq
    by_cases h4 : i < 4
    · rw [List.get?_append (by rw [hlE]; omega)] at hq
      rw [if_pos h4]
      exact (mem_pickFromGroup (List.get?_mem hq)).2
    · rw [List.get?_append_right (by rw [hlE]; omega)] at hq
      rw [if_neg h4, if_pos h9]
      exact (mem_pickFromGroup (List.get?_mem hq)).2
  · rw [List.get?_append_right (by rw [List.length_append, hlE, hlM]; omega)] at hq
    rw [if_neg (by omega), if_neg (by omega)]
    exact (mem_pickFromGroup (List.get?_mem hq)).2

/-- Witness for C2: on the concrete pool the daily set is the verbatim
block concatenation. -/
theorem buildDailySet_progression_witness :
    buildDailySet testPool ("2024-05-01-1") = quotaBlocks testPool ("2024-05-01-1") :=
  (buildDailySet_progression testPool ("2024-05-01-1")
    (by decide) (by decide) (by decide) (by decide)).1

/-! ## Filler step and id uniqueness -/

/-- Appending (a prefix of a shuffle of) the pool questions whose ids were
not yet selected to an id-unique selection keeps the ids pairwise
distinct. -/
theorem nodup_map_append_filler (pool blocks : List Question) (fs : String) (n : Nat)
    (hids : (pool.map Question.id).Nodup)
    (hbl : (blocks.map Question.id).Nodup) :
    ((blocks
        ++ (seededShuffle (pool.filter (fun q => !(blocks.any (fun r => r.id == q.id)))) fs).take
            n).map Question.id).Nodup := by
  simp only [List.map_append]
  rw [List.nodup_append]
  refine ⟨hbl, ?_, ?_⟩
  · have hrem : ((pool.filter (fun q => !(blocks.any (fun r => r.id == q.id)))).map
        Question.id).Nodup :=
      hids.sublist ((List.filter_sublist pool).map Question.id)
    have hshuf := ((seededShuffle_perm
      (pool.filter (fun q => !(blocks.any (fun r => r.id == q.id)))) fs).map
        Question.id).nodup_iff.mpr hrem
    exact hshuf.sublist ((List.take_sublist n _).map Question.id)
  · intro x hx hx'
    obtain ⟨r, hr, hidr⟩ := List.mem_map.mp hx
    obtain ⟨q, hqf, hidq⟩ := List.mem_map.mp hx'
    have hq1 : q ∈ seededShuffle (pool.filter (fun q => !(blocks.any (fun r => r.id == q.id))))
        fs :=
      (List.take_sublist n _).subset hqf
    have hq2 := mem_seededShuffle.mp hq1
    have hq3 := (List.mem_filter.mp hq2).2
    simp only [Bool.not_eq_true', List.any_eq_false, beq_eq_false_iff_ne] at hq3
    exact hq3 r hr (by rw [hidr, hidq]; exact beq_self_eq_true x)

/-- Whatever branch runs, a pool with pairwise-distinct ids yields a daily
set with pairwise-distinct ids. -/
theorem nodup_map_buildDailySet (pool : List Question) (daySeed : String)
    (hids : (pool.map Question.id).Nodup) :
    ((buildDailySet pool daySeed).map Question.id).Nodup := by
  by_cases h : (quotaBlocks pool daySeed).length < 30
  · rw [buildDailySet_eq_filler h]
    exact nodup_map_append_filler pool (quotaBlocks pool daySeed) (daySeed ++ "-filler")
      (30 - (quotaBlocks pool daySeed).length) hids (nodup_map_quotaBlocks hids)
  · rw [buildDailySet_eq_blocks h]
    exact nodup_map_quotaBlocks hids

/-- C6: when the quota blocks hold fewer than 30 items, the daily set is
the blocks followed by the front of the remainder of the pool (the
questions whose ids were not selected) shuffled with seed
`daySeed ++ "-filler"`, taken up to length 30, and no duplicate id is
introduced. -/
theorem buildDailySet_filler (pool : List Question) (daySeed : String)
    (hids : (pool.map Question.id).Nodup)
    (h : (quotaBlocks pool daySeed).length < 30) :
    buildDailySet pool daySeed
      = quotaBlocks pool daySeed
        ++ (seededShuffle
              (pool.filter
                (fun q => !((quotaBlocks pool daySeed).any (fun r => r.id == q.id))))
              (daySeed ++ "-filler")).take (30 - (quotaBlocks pool daySeed).length) ∧
      ((buildDailySet pool daySeed).map Question.id).Nodup :=
  ⟨buildDailySet_eq_filler h, nodup_map_buildDailySet pool daySeed hids⟩

/-- Witness for C6: the 3-question pool forces the filler branch. -/
theorem buildDailySet_filler_witness :
    buildDailySet smallPool ("2024-05-01-1")
      = quotaBlocks smallPool ("2024-05-01-1")
        ++ (seededShuffle
              (smallPool.filter
                (fun q => !((quotaBlocks smallPool ("2024-05-01-1")).any (fun r => r.id == q.id))))
              ("2024-05-01-1" ++ "-filler")).take
            (30 - (quotaBlocks smallPool ("2024-05-01-1")).length) :=
  (buildDailySet_filler smallPool ("2024-05-01-1") (by decide) (by decide)).1

/-- C7: for every pool with pairwise-distinct ids and every day seed, no
id appears twice in the daily set, whether or not the quotas are
satisfiable and whether or not the filler step runs. -/
theorem buildDailySet_unique_ids (pool : List Question) (daySeed : String)
    (hids : (pool.map Question.id).Nodup) :
    ((buildDailySet pool daySeed).map Question.id).Nodup :=
  nodup_map_buildDailySet pool daySeed hids

/-- Witness for C7: the concrete 30-question pool on a second seed. -/
theorem buildDailySet_unique_ids_witness :
    ((buildDailySet testPool ("2024-05-02-2")).map Question.id).Nodup :=
  buildDailySet_unique_ids testPool ("2024-05-02-2") (by decide)

/-! ## Undersized pools -/

/-- The quota blocks followed by the unselected remainder of the pool form
a permutation of the whole pool (given pairwise-distinct ids). -/
theorem blocks_append_remaining_perm (pool : List Question) (daySeed : String)
    (hids : (pool.map Question.id).Nodup) :
    (quotaBlocks pool daySeed
      ++ pool.filter
          (fun q => !((quotaBlocks pool daySeed).any (fun r => r.id == q.id)))).Perm pool := by
  have hbnodup : (quotaBlocks pool daySeed).Nodup :=
    List.Nodup.of_map Question.id (nodup_map_quotaBlocks hids)
  have hpool : pool.Nodup := List.Nodup.of_map Question.id hids
  have hrnodup :
      (pool.filter
        (fun q => !((quotaBlocks pool daySeed).any (fun r => r.id == q.id)))).Nodup :=
    hpool.filter _
  have happ : (quotaBlocks pool daySeed
      ++ pool.filter
          (fun q => !((quotaBlocks pool daySeed).any (fun r => r.id == q.id)))).Nodup := by
    rw [List.nodup_append]
    refine ⟨hbnodup, hrnodup, ?_⟩
    intro q hqb hqr
    have hq := (List.mem_filter.mp hqr).2
    simp only [Bool.not_eq_true', List.any_eq_false] at hq
    exact hq q hqb (beq_self_eq_true q.id)
  refine (List.perm_ext_iff_of_nodup happ hpool).mpr ?_
  intro q
  constructor
  · intro hq
    rcases List.mem_append.mp hq with hb | hr
    · exact (mem_quotaBlocks hb).1
    · exact (List.mem_filter.mp hr).1
  · intro hq
    by_cases hin : (quotaBlocks pool daySeed).any (fun r => r.id == q.id) = true
    · obtain ⟨r, hr, hrq⟩ := List.any_eq_true.mp hin
      have hreq : r = q :=
        List.inj_on_of_nodup_map hids (mem_quotaBlocks hr).1 hq (by simpa using hrq)
      exact List.mem_append.mpr (Or.inl (hreq ▸ hr))
    · exact List.mem_append.mpr (Or.inr (List.mem_filter.mpr ⟨hq, by simpa using hin⟩))

/-- C8: a pool with pairwise-distinct ids but fewer than 30 questions in
total yields — with no error — a daily set shorter than 30 that is a
permutation of the pool: every pool question appears exactly once after
the filler exhausts the pool. -/
theorem buildDailySet_small_pool (pool : List Question) (daySeed : String)
    (hids : (pool.map Question.id).Nodup) (hsmall : pool.length < 30) :
    (buildDailySet pool daySeed).Perm pool ∧ (buildDailySet pool daySeed).length < 30 := by
  have hperm := blocks_append_remaining_perm pool daySeed hids
  have hlenb : (quotaBlocks pool daySeed).length
      + (pool.filter
          (fun q => !((quotaBlocks pool daySeed).any (fun r => r.id == q.id)))).length
      = pool.length := by
    have hl := hperm.length_eq
    rwa [List.length_append] at hl
  have hblt : (quotaBlocks pool daySeed).length < 30 := by omega
  have htake : (seededShuffle
        (pool.filter (fun q => !((quotaBlocks pool daySeed).any (fun r => r.id == q.id))))
        (daySeed ++ "-filler")).take (30 - (quotaBlocks pool daySeed).length)
      = seededShuffle
          (pool.filter (fun q => !((quotaBlocks pool daySeed).any (fun r => r.id == q.id))))
          (daySeed ++ "-filler") := by
    apply List.take_of_length_le
    rw [seededShuffle_length]
    omega
  have heq := buildDailySet_eq_filler hblt
  rw [htake] at heq
  have hres : (buildDailySet pool daySeed).Perm pool := by
    rw [heq]
    exact ((seededShuffle_perm _ _).append_left (quotaBlocks pool daySeed)).trans hperm
  exact ⟨hres, by rw [hres.length_eq]; exact hsmall⟩

/-- Witness for C8: the concrete 3-question pool. -/
theorem buildDailySet_small_pool_witness :
    (buildDailySet smallPool ("2024-05-01-1")).Perm smallPool ∧
      (buildDailySet smallPool ("2024-05-01-1")).length < 30 :=
  buildDailySet_small_pool smallPool ("2024-05-01-1") (by decide) (by decide)

/-- C9: every question contributed by the quota blocks carries one of the
labels Easy, Medium or Hard — any other label can enter the result only
through the filler step — and a label with no question in the pool yields
an empty pick (empty block) rather than a failure. -/
theorem quotaBlocks_labels (pool : List Question) (daySeed : String) :
    (∀ q ∈ quotaBlocks pool daySeed,
        q.difficulty = "Easy" ∨ q.difficulty = "Medium" ∨ q.difficulty = "Hard") ∧
      ∀ (g : String) (n : Nat), (∀ q ∈ pool, q.difficulty ≠ g) →
        pickFromGroup (groupByDifficulty pool) g n daySeed = [] := by
  refine ⟨fun q hq => (mem_quotaBlocks hq).2, ?_⟩
  intro g n hab
  have hgrp : groupByDifficulty pool g = [] := by
    simp only [groupByDifficulty]
    rw [List.filter_eq_nil]
    intro q hq
    simpa using hab q hq
  unfold pickFromGroup
  rw [hgrp, seededShuffle_short _ _ (by simp), List.take_nil]

/-- Witness for C9: `smallPool` has no question labelled Expert, so the
Expert pick is empty. -/
theorem quotaBlocks_labels_witness :
    pickFromGroup (groupByDifficulty smallPool) "Expert" 4 ("2024-05-01-1") = [] :=
  (quotaBlocks_labels smallPool ("2024-05-01-1")).2 ("Expert") 4 (by decide)
